import Mathlib

/-!
# Verification of the `config` environment/file binder

A shallow embedding, in Lean 4, of the configuration-binding library
(package `config`): the key/value normalizer (`stringsToMap`), the source
merger (`mergeConfig`), the scalar converter (`convertAndSetValue`), the
sequence converter (`stringToSlice` / `convertAndSetSlice`), the recursive
structure walker (`populateStructRecursively`, here `populateFieldsGo`),
and the error-message renderers of `error.go`.

Machine integers are modelled as `Nat`/`Int` with explicit range checks
(exactly the checks `strconv.ParseInt`/`ParseUint` perform for a given
`bitSize`); strings are Lean `String`s.  Go data that is irrelevant to the
verified properties (e.g. float fields, full Unicode case folding) is noted
where it is abstracted.
-/

namespace Config

/-! ## Go string primitives used by the library -/

/-- `unicode.IsSpace` restricted to the Latin-1 range, which is the set Go's
`strings.TrimSpace` fast path handles: space, tab, newline, vertical tab,
form feed, carriage return, NEL and NBSP.  (Space classes above U+00FF do
not occur in any input considered here.) -/
def goIsSpace (c : Char) : Bool :=
  c = ' ' || c = '\t' || c = '\n' || c = '\x0b' || c = '\x0c' || c = '\r' ||
  c = '\x85' || c = '\xa0'

/-- Go `strings.TrimSpace`: drop leading and trailing whitespace. -/
def goTrimSpace (s : String) : String :=
  String.mk (((s.data.dropWhile goIsSpace).reverse.dropWhile goIsSpace).reverse)

/-- ASCII lower-casing of one character.  Go's `strings.ToLower` performs
full Unicode folding; every key handled by the library's own tests is
ASCII, and the embedding only relies on ASCII folding. -/
def goToLowerChar (c : Char) : Char :=
  if 'A' ≤ c ∧ c ≤ 'Z' then Char.ofNat (c.toNat + 32) else c

/-- Go `strings.ToLower` (ASCII fragment, see `goToLowerChar`). -/
def goToLower (s : String) : String :=
  String.mk (s.data.map goToLowerChar)

/-! ## `strconv` models

`strconv.ParseInt(s, 10, bitSize)` and `strconv.ParseUint(s, 10, bitSize)`
accept a decimal digit string (`ParseInt` additionally allows one leading
`+` or `-`) and then enforce the range of the requested bit size.  On
failure `ParseUint` still returns a value together with the error: `0` for
a syntax error and the maximal representable value for a range error; this
partial result matters because one caller stores it unconditionally. -/

/-- Decimal digit test, `'0' ≤ c ≤ '9'`. -/
def isDig (c : Char) : Bool := '0' ≤ c && c ≤ '9'

/-- Value of a (non-empty, all-digit) decimal digit list. -/
def digitsToNat (ds : List Char) : Nat :=
  ds.foldl (fun a c => a * 10 + (c.toNat - 48)) 0

/-- The digit-consuming loop shared by `ParseInt`/`ParseUint`: a non-empty
all-digit string yields its value, anything else is a syntax error. -/
def decDigits (ds : List Char) : Option Nat :=
  if ds = [] then none
  else if ds.all isDig then some (digitsToNat ds) else none

/-- The syntax layer of `strconv.ParseInt(s, 10, _)`: optional sign, then
decimal digits. -/
def parseIntSyntax (s : String) : Option Int :=
  match s.data with
  | [] => none
  | c :: cs =>
    if c = '+' then (decDigits cs).map (fun m => (m : Int))
    else if c = '-' then (decDigits cs).map (fun m => -(m : Int))
    else (decDigits (c :: cs)).map (fun m => (m : Int))

/-- `strconv.ParseInt(s, 10, bits)`: `none` on a syntax error or when the
value falls outside `[-2^(bits-1), 2^(bits-1)-1]`.  (The value returned
alongside a range error is never used by the library: the caller guards the
store with `err == nil`.) -/
def parseInt10 (s : String) (bits : Nat) : Option Int :=
  match parseIntSyntax s with
  | none => none
  | some v =>
    if -(2 ^ (bits - 1) : Int) ≤ v ∧ v ≤ (2 ^ (bits - 1) : Int) - 1 then some v
    else none

/-- `strconv.ParseUint(s, 10, bits)` as `(value, ok)`: no sign is accepted;
a syntax error yields `(0, false)`, a range error yields the clamped
maximum `(2^bits - 1, false)`.  The partial value is significant because
`convertAndSetValue` stores it even when `ok` is `false`. -/
def parseUint10 (s : String) (bits : Nat) : Nat × Bool :=
  match decDigits s.data with
  | none => (0, false)
  | some m => if m ≤ 2 ^ bits - 1 then (m, true) else (2 ^ bits - 1, false)

/-- `strconv.ParseBool` as `(value, ok)`; the error case returns `false`
for the value, which `convertAndSetValue` stores unconditionally. -/
def parseBoolGo (s : String) : Bool × Bool :=
  if s = "1" ∨ s = "t" ∨ s = "T" ∨ s = "true" ∨ s = "TRUE" ∨ s = "True" then
    (true, true)
  else if s = "0" ∨ s = "f" ∨ s = "F" ∨ s = "false" ∨ s = "FALSE" ∨ s = "False" then
    (false, true)
  else (false, false)

/-! ## `time.ParseDuration`

`convertAndSetValue` routes `int64`-kinded fields whose reflected type is
`time.Duration` through `time.ParseDuration`.  The grammar is
`[-+]?([0-9]*(\.[0-9]*)?unit)+` with units `ns us µs μs ms s m h`, plus the
special case `"0"`.  Go computes the fractional contribution as
`uint64(float64(f) * (float64(unit) / scale))`; here that product is the
exact truncated quotient `f * unit / scale`, which agrees with Go on every
input whose intermediate values fit a `float64` mantissa (all theorems
below use whole-number durations, where no fraction arises at all). -/

/-- `leadingInt`: consume leading decimal digits into `x`, failing (like
Go) when the accumulator would pass `2^63`. -/
def leadingIntGo : Nat → List Char → Option (Nat × List Char)
  | x, [] => some (x, [])
  | x, c :: cs =>
    if c < '0' ∨ c > '9' then some (x, c :: cs)
    else if x > 2 ^ 63 / 10 then none
    else
      let y := x * 10 + (c.toNat - 48)
      if y > 2 ^ 63 then none else leadingIntGo y cs

/-- `leadingFraction`: consume digits after the decimal point into
`x`/`scale`, silently dropping digits once `x` would overflow. -/
def leadingFractionGo : Nat → Nat → Bool → List Char → Nat × Nat × List Char
  | x, scale, _, [] => (x, scale, [])
  | x, scale, ov, c :: cs =>
    if c < '0' ∨ c > '9' then (x, scale, c :: cs)
    else if ov then leadingFractionGo x scale ov cs
    else if x > (2 ^ 63 - 1) / 10 then leadingFractionGo x scale true cs
    else
      let y := x * 10 + (c.toNat - 48)
      if y > 2 ^ 63 then leadingFractionGo x scale true cs
      else leadingFractionGo y (scale * 10) ov cs

/-- The `unitMap` of `time.ParseDuration`, in nanoseconds. -/
def unitLookup : String → Option Nat
  | "ns" => some 1
  | "us" => some 1000
  | "µs" => some 1000
  | "μs" => some 1000
  | "ms" => some 1000000
  | "s" => some 1000000000
  | "m" => some 60000000000
  | "h" => some 3600000000000
  | _ => none

/-- Is this character allowed to terminate a unit token (i.e. start the
next number)? -/
def isUnitEnd (c : Char) : Bool := c = '.' || ('0' ≤ c && c ≤ '9')

/-- The main loop of `time.ParseDuration`: repeatedly read
`digits[.digits]unit`, accumulating nanoseconds in `d`.  Each iteration
consumes at least one character, so `fuel := length + 1` never runs out;
the `0` case is unreachable. -/
def durLoop : Nat → Nat → List Char → Option Nat
  | 0, _, _ => none
  | fuel + 1, d, cs =>
    match cs with
    | [] => some d
    | c :: _ =>
      if !isUnitEnd c then none
      else
        match leadingIntGo 0 cs with
        | none => none
        | some (v, s1) =>
          let pre : Bool := s1.length != cs.length
          let frac : Nat × Nat × List Char × Bool :=
            match s1 with
            | '.' :: rest =>
              let r := leadingFractionGo 0 1 false rest
              (r.1, r.2.1, r.2.2, decide (r.2.2.length ≠ rest.length))
            | _ => (0, 1, s1, false)
          let f := frac.1
          let scale := frac.2.1
          let s2 := frac.2.2.1
          let post := frac.2.2.2
          if !pre && !post then none
          else
            let uChars := s2.takeWhile (fun c => !isUnitEnd c)
            if uChars.length = 0 then none
            else
              match unitLookup (String.mk uChars) with
              | none => none
              | some unit =>
                if v > 2 ^ 63 / unit then none
                else
                  let v1 := v * unit
                  let v2 := if f > 0 then v1 + f * unit / scale else v1
                  if v2 > 2 ^ 63 then none
                  else
                    let d1 := d + v2
                    if d1 > 2 ^ 63 then none
                    else durLoop fuel d1 (s2.drop uChars.length)

/-- `time.ParseDuration`, returning nanoseconds (`time.Duration` is an
`int64` count of nanoseconds). -/
def parseDuration (s : String) : Option Int :=
  let cs := s.data
  let signed : Bool × List Char :=
    match cs with
    | '-' :: r => (true, r)
    | '+' :: r => (false, r)
    | _ => (false, cs)
  let neg := signed.1
  let cs := signed.2
  if cs = ['0'] then some 0
  else if cs = [] then none
  else
    match durLoop (cs.length + 1) 0 cs with
    | none => none
    | some d =>
      if neg then some (-(d : Int))
      else if d > 2 ^ 63 - 1 then none
      else some (d : Int)

/-! ## The scalar converter (`convertAndSetValue`)

The walker dispatches on `reflect.Kind`.  The embedding carries the kind
information in `ScalarType`; the reflected bit width `Type().Bits()` is the
`bits` index (64 for `int`/`uint` on a 64-bit platform).  `tDuration`
stands for an `int64`-kinded named type with `PkgPath() == "time"` and
`Name() == "Duration"`.  `tUnsupported` stands for any kind the `switch`
does not handle (pointer, map, chan, func, interface, complex, array, and
struct/slice when reached through a slice element); its string is the kind
name used in the error.  The two float kinds take the analogous
`strconv.ParseFloat` path; no claim below touches floating point, so they
are left out of the embedding. -/

inductive ScalarType : Type where
  | tString : ScalarType
  | tInt (bits : Nat) : ScalarType
  | tDuration : ScalarType
  | tUint (bits : Nat) : ScalarType
  | tBool : ScalarType
  | tUnsupported (kindName : String) : ScalarType
  deriving DecidableEq, Repr

inductive ScalarVal : Type where
  | vString (s : String) : ScalarVal
  | vInt (i : Int) : ScalarVal
  | vUint (u : Nat) : ScalarVal
  | vBool (b : Bool) : ScalarVal
  | vNone : ScalarVal
  deriving DecidableEq, Repr

/-- The zero value `reflect.New(elemType)` starts from. -/
def zeroVal : ScalarType → ScalarVal
  | ScalarType.tString => ScalarVal.vString ""
  | ScalarType.tInt _ => ScalarVal.vInt 0
  | ScalarType.tDuration => ScalarVal.vInt 0
  | ScalarType.tUint _ => ScalarVal.vUint 0
  | ScalarType.tBool => ScalarVal.vBool false
  | ScalarType.tUnsupported _ => ScalarVal.vNone

/-- `convertAndSetValue(settable, s)` of the library: the settable's prior
contents are `prior`, the result is the new contents plus the `bool` the
function returns (`true` = no failure).  Mirrors the source: an empty
string is an immediate success that touches nothing; the signed-integer
case stores only under `if err == nil`; the unsigned and bool cases store
the parser's returned value unconditionally, even on failure; an
unhandled kind is a failure that stores nothing. -/
def convertAndSetValue (t : ScalarType) (prior : ScalarVal) (s : String) :
    ScalarVal × Bool :=
  if s = "" then (prior, true)
  else
    match t with
    | ScalarType.tString => (ScalarVal.vString s, true)
    | ScalarType.tInt bits =>
      match parseInt10 s bits with
      | some i => (ScalarVal.vInt i, true)
      | none => (prior, false)
    | ScalarType.tDuration =>
      match parseDuration s with
      | some d => (ScalarVal.vInt d, true)
      | none => (prior, false)
    | ScalarType.tUint bits =>
      let r := parseUint10 s bits
      (ScalarVal.vUint r.1, r.2)
    | ScalarType.tBool =>
      let r := parseBoolGo s
      (ScalarVal.vBool r.1, r.2)
    | ScalarType.tUnsupported _ => (prior, false)

/-! ## The config map, normalizer (`stringsToMap`) and merger (`mergeConfig`)

Go's `map[string]string` is modelled as an association list with unique
keys; `mapInsert` replaces an existing binding in place, so insertion
order is immaterial for lookups, exactly as for a Go map. -/

/-- A `map[string]string`. -/
abbrev ConfigMap := List (String × String)

/-- `m[k] = v` on a Go map: overwrite the binding if present, else add. -/
def mapInsert (m : ConfigMap) (k v : String) : ConfigMap :=
  match m with
  | [] => [(k, v)]
  | (k', v') :: rest =>
    if k' = k then (k, v) :: rest else (k', v') :: mapInsert rest k v

/-- `v, ok := m[k]` on a Go map. -/
def mapLookup (m : ConfigMap) (k : String) : Option String :=
  match m with
  | [] => none
  | (k', v') :: rest => if k' = k then some v' else mapLookup rest k

/-- `value := c.configMap[key]`: a missing key reads as `""`. -/
def configLookup (m : ConfigMap) (k : String) : String :=
  (mapLookup m k).getD ""

/-- `mergeConfig`: `for k, v := range in { c.configMap[k] = v }`. -/
def mergeConfig (m inM : ConfigMap) : ConfigMap :=
  inM.foldl (fun acc p => mapInsert acc p.1 p.2) m

/-- `strings.SplitN(s, "=", 2)[0]`, lower-cased: the key part of a line
containing `=`. -/
def lineKey (s : String) : String :=
  goToLower (String.mk (s.data.takeWhile (fun c => c ≠ '=')))

/-- `strings.SplitN(s, "=", 2)[1]`: everything after the first `=`. -/
def lineValue (s : String) : String :=
  String.mk ((s.data.dropWhile (fun c => c ≠ '=')).tail)

/-- The body of `stringsToMap`'s loop for one line `s`. -/
def stringsToMapStep (m : ConfigMap) (s : String) : ConfigMap :=
  if !(s.data.contains '=') then m
  else if lineKey s ≠ "" ∧ lineValue s ≠ "" then mapInsert m (lineKey s) (lineValue s)
  else m

/-- `stringsToMap`: each `KEY=VALUE` line is split at its first `=`, the
key lower-cased, and entries with an empty key or empty value dropped;
lines without `=` are skipped entirely. -/
def stringsToMap (ss : List String) : ConfigMap :=
  ss.foldl stringsToMapStep []

/-- The normalization of one raw line, written from the spec's words: no
`=` means discard; otherwise split at the first `=`, lower-case the key,
and discard entries with an empty key or empty value.  Used to state the
refinement theorem for `stringsToMap`. -/
def normalizeLine (s : String) : Option (String × String) :=
  if s.data.contains '=' then
    if lineKey s = "" ∨ lineValue s = "" then none else some (lineKey s, lineValue s)
  else none

/-- The value of the last entry for `k` in an ordered entry list (later
duplicates overwrite earlier ones). -/
def lastValueFor (es : List (String × String)) (k : String) : Option String :=
  match es with
  | [] => none
  | (k', v') :: rest =>
    match lastValueFor rest k with
    | some v => some v
    | none => if k' = k then some v' else none

/-! ## The sequence converter (`stringToSlice`, `convertAndSetSlice`) -/

/-- The splitting loop of Go `strings.Split(s, sep)` for a non-empty
separator: split around each non-overlapping, leftmost-first occurrence.
`fuel` only drives structural recursion; `fuel = length of the input`
always suffices because each step consumes at least one character. -/
def splitFuel (sep : List Char) : Nat → List Char → List (List Char)
  | _, [] => [[]]
  | 0, cs => [cs]
  | fuel + 1, c :: cs =>
    if sep.isPrefixOf (c :: cs) then
      [] :: splitFuel sep fuel ((c :: cs).drop sep.length)
    else
      match splitFuel sep fuel cs with
      | [] => [[c]]
      | h :: t => (c :: h) :: t

/-- Go `strings.Split(s, sep)` for a non-empty separator. -/
def goSplit (s sep : String) : List String :=
  (splitFuel sep.data s.data.length s.data).map String.mk

/-- `stringToSlice(s, delim)`: trim the whole string, split on the
delimiter, trim every token and drop the ones that become empty.  (The
library panics on an empty delimiter before ever splitting; the walker
always passes its configured non-empty `sliceDelim`.) -/
def stringToSlice (s delim : String) : List String :=
  let s := goTrimSpace s
  if s = "" then []
  else ((goSplit s delim).map goTrimSpace).filter (fun v => v ≠ "")

/-- The indexed loop of `convertAndSetSlice`: convert each token from the
element type's zero value; successes are appended to the output in order,
failures record their 0-based index within `values`. -/
def casGo (t : ScalarType) (i : Nat) : List String → List ScalarVal × List Nat
  | [] => ([], [])
  | s :: rest =>
    let r := convertAndSetValue t (zeroVal t) s
    let rr := casGo t (i + 1) rest
    if r.2 then (r.1 :: rr.1, rr.2) else (rr.1, i :: rr.2)

/-- `convertAndSetSlice(slicePtr, values)`: the slice pointed to (prior
contents `prior`) receives every successfully converted value, in order;
the returned list holds the indices of the failed values. -/
def convertAndSetSlice (t : ScalarType) (prior : List ScalarVal)
    (values : List String) : List ScalarVal × List Nat :=
  let r := casGo t 0 values
  (prior ++ r.1, r.2)

/-- The successfully converted values of a token list, in order (the
claim-side description of the slice contents). -/
def sliceSuccesses (t : ScalarType) (values : List String) : List ScalarVal :=
  values.filterMap fun s =>
    let r := convertAndSetValue t (zeroVal t) s
    if r.2 then some r.1 else none

/-- The 0-based positions of the failing tokens, in order (the claim-side
description of the failed indices). -/
def sliceFailedIdx (t : ScalarType) (values : List String) : List Nat :=
  ((List.enumFrom 0 values).filter fun p =>
    !(convertAndSetValue t (zeroVal t) p.2).2).map Prod.fst

/-! ## The structure walker (`populateStructRecursively`)

A target record is a list of fields; each field has a declared name, an
optional `config:"..."` struct tag, and a type that is a scalar kind, a
slice of a scalar kind, or a nested record.  The parallel `FieldVal` tree
holds the record's current (caller-supplied) contents. -/

mutual
inductive FieldType : Type where
  | scalar (t : ScalarType) : FieldType
  | slice (elem : ScalarType) : FieldType
  | record (fields : List Field) : FieldType

inductive Field : Type where
  | mk (name : String) (tag : Option String) (ftype : FieldType) : Field
end

inductive FieldVal : Type where
  | scalarV (v : ScalarVal) : FieldVal
  | sliceV (vs : List ScalarVal) : FieldVal
  | structV (vs : List FieldVal) : FieldVal

/-- `getKey(t, prefix)`: the field's tag (trimmed) overrides its name when
present and non-blank; the prefixed result is lower-cased. -/
def getKey (name : String) (tag : Option String) (pre : String) : String :=
  let n :=
    match tag with
    | some tg => let tg := goTrimSpace tg; if tg ≠ "" then tg else name
    | none => name
  goToLower (pre ++ n)

mutual
/-- Dispatch on the field's kind, as in the `switch` of
`populateStructRecursively`: a struct recurses with `key + structDelim` as
the new prefix; a slice runs the sequence converter on the looked-up raw
string and renders each failed index as `key[i]`; anything else runs the
scalar converter and on failure records the key.  A shape mismatch
between type and value cannot arise from Go reflection and is a no-op. -/
def populateValue (cm : ConfigMap) (stD slD key : String) :
    FieldType → FieldVal → FieldVal × List String
  | FieldType.record fs, FieldVal.structV vs =>
    let r := populateFieldsGo cm stD slD (key ++ stD) fs vs
    (FieldVal.structV r.1, r.2)
  | FieldType.slice t, FieldVal.sliceV vs =>
    let r := convertAndSetSlice t vs (stringToSlice (configLookup cm key) slD)
    (FieldVal.sliceV r.1, r.2.map fun i => key ++ "[" ++ toString i ++ "]")
  | FieldType.scalar t, FieldVal.scalarV sv =>
    let r := convertAndSetValue t sv (configLookup cm key)
    (FieldVal.scalarV r.1, if r.2 then [] else [key])
  | _, v => (v, [])

/-- The field loop of `populateStructRecursively`: every field is visited
in declaration order, its key computed from the prefix, and the failures
of all fields concatenated; there is no early exit. -/
def populateFieldsGo (cm : ConfigMap) (stD slD pre : String) :
    List Field → List FieldVal → List FieldVal × List String
  | [], _ => ([], [])
  | _ :: _, [] => ([], [])
  | Field.mk name tag ft :: fs, v :: vs =>
    let key := getKey name tag pre
    let r1 := populateValue cm stD slD key ft v
    let r2 := populateFieldsGo cm stD slD pre fs vs
    (r1.1 :: r2.1, r1.2 ++ r2.2)
end

/-- The aggregate message `To` builds from the failed fields (Go's `%v`
rendering of a `[]string`). -/
def failedFieldsMsg (failed : List String) : String :=
  "config: the following fields had errors: [" ++
    String.intercalate " " failed ++ "]"

/-- `(c *Builder) To(target)`: run the walker from the empty prefix and
return the populated record together with the aggregate error — `none`
when no field failed, otherwise one error listing every failed field. -/
def bindTo (cm : ConfigMap) (stD slD : String) (fs : List Field)
    (vs : List FieldVal) : List FieldVal × Option String :=
  let r := populateFieldsGo cm stD slD "" fs vs
  (r.1, if r.2 = [] then none else some (failedFieldsMsg r.2))

/-! ## The error renderers of `error.go`

`fieldError.Error()` interpolates the wrapped error's own message; when
that error comes from `strconv`, its message is a `strconv.NumError`
rendering, which quotes the raw input string.  (Escaping inside
`strconv.Quote` is dropped: every string considered here contains no
characters needing escapes.) -/

/-- `fieldError.Error()`: `failed to parse <t> value for field <name>:
<err>`. -/
def fieldErrorMsg (t name errMsg : String) : String :=
  "failed to parse " ++ t ++ " value for field " ++ name ++ ": " ++ errMsg

/-- `strconv.NumError.Error()`: `strconv.<Func>: parsing "<num>":
<err>`. -/
def numErrorMsg (fn num errTxt : String) : String :=
  "strconv." ++ fn ++ ": parsing \"" ++ num ++ "\": " ++ errTxt

/-- `sliceError.Error()`: `failed to parse <t> value for slice <name> at
index <i>: <err>`. -/
def sliceErrorMsg (t name : String) (index : Nat) (errMsg : String) : String :=
  "failed to parse " ++ t ++ " value for slice " ++ name ++ " at index " ++
    toString index ++ ": " ++ errMsg

/-! ## Map lemmas -/

theorem mapLookup_mapInsert_self (m : ConfigMap) (k v : String) :
    mapLookup (mapInsert m k v) k = some v := by
  induction m with
  | nil => simp [mapInsert, mapLookup]
  | cons p rest ih =>
    obtain ⟨k', v'⟩ := p
    by_cases h : k' = k
    · simp [mapInsert, mapLookup, h]
    · simp [mapInsert, mapLookup, h, ih]

theorem mapLookup_mapInsert_ne (m : ConfigMap) (k v k' : String) (h : k' ≠ k) :
    mapLookup (mapInsert m k v) k' = mapLookup m k' := by
  have h' : ¬ k = k' := fun e => h e.symm
  induction m with
  | nil => simp [mapInsert, mapLookup, h']
  | cons p rest ih =>
    obtain ⟨k'', v''⟩ := p
    by_cases h2 : k'' = k
    · subst h2
      simp [mapInsert, mapLookup, h']
    · simp [mapInsert, mapLookup, h2, ih]

theorem mergeConfig_cons (m : ConfigMap) (k v : String) (t : ConfigMap) :
    mergeConfig m ((k, v) :: t) = mergeConfig (mapInsert m k v) t := rfl

theorem mapLookup_mergeConfig_not_mem (m t : ConfigMap) (k : String)
    (h : k ∉ t.map Prod.fst) : mapLookup (mergeConfig m t) k = mapLookup m k := by
  induction t generalizing m with
  | nil => rfl
  | cons p rest ih =>
    obtain ⟨k', v'⟩ := p
    simp only [List.map_cons, List.mem_cons] at h
    push_neg at h
    rw [mergeConfig_cons, ih _ h.2, mapLookup_mapInsert_ne _ _ _ _ h.1]

/-! ## Claim theorems -/

/-- **C6.** Merging configuration sources is strictly right-biased by
recency: every key present in the later source takes the later source's
value, every key absent from the later source keeps its earlier value, and
in particular merging `{k ↦ "1"}` then `{k ↦ "2"}` into a fresh builder
leaves `k` mapped to `"2"`.  (The `Nodup` hypothesis records that a Go map,
the type of the merged-in source, has unique keys.) -/
theorem mergeConfig_right_biased (m inM : ConfigMap) (k : String)
    (h : (inM.map Prod.fst).Nodup) :
    ((∀ v, mapLookup inM k = some v → mapLookup (mergeConfig m inM) k = some v) ∧
      (mapLookup inM k = none → mapLookup (mergeConfig m inM) k = mapLookup m k)) ∧
    configLookup (mergeConfig (mergeConfig [] [("k", "1")]) [("k", "2")]) "k" = "2" := by
  refine ⟨?_, by rfl⟩
  induction inM generalizing m with
  | nil => exact ⟨fun v hv => by simp [mapLookup] at hv, fun _ => rfl⟩
  | cons p rest ih =>
    obtain ⟨k', v'⟩ := p
    simp only [List.map_cons, List.nodup_cons] at h
    constructor
    · intro v hv
      rw [mergeConfig_cons]
      by_cases hk : k' = k
      · subst hk
        simp only [mapLookup, if_pos rfl] at hv
        cases hv
        have hkr : k' ∉ rest.map Prod.fst := h.1
        rw [mapLookup_mergeConfig_not_mem _ _ _ hkr, mapLookup_mapInsert_self]
      · simp only [mapLookup, if_neg hk] at hv
        exact (ih (mapInsert m k' v') h.2).1 v hv
    · intro hv
      rw [mergeConfig_cons]
      by_cases hk : k' = k
      · subst hk
        simp [mapLookup] at hv
      · simp only [mapLookup, if_neg hk] at hv
        rw [(ih (mapInsert m k' v') h.2).2 hv,
          mapLookup_mapInsert_ne _ _ _ _ fun e => hk e.symm]

/-- Witness for `mergeConfig_right_biased` at concrete inputs: the later
source `[("k", "2")]` overrides the earlier binding of `"k"` and leaves the
unrelated key `"other"` alone. -/
theorem mergeConfig_right_biased_witness :
    mapLookup (mergeConfig [("k", "1"), ("other", "o")] [("k", "2")]) "k" = some "2" ∧
    mapLookup (mergeConfig [("k", "1"), ("other", "o")] [("k", "2")]) "other" = some "o" := by
  constructor
  · exact ((mergeConfig_right_biased [("k", "1"), ("other", "o")] [("k", "2")] "k"
      (by decide)).1).1 "2" (by decide)
  · have h := ((mergeConfig_right_biased [("k", "1"), ("other", "o")] [("k", "2")] "other"
      (by decide)).1).2 (by decide)
    rw [h]; decide

theorem stringsToMapStep_eq_normalizeLine (m : ConfigMap) (s : String) :
    stringsToMapStep m s =
      match normalizeLine s with
      | none => m
      | some kv => mapInsert m kv.1 kv.2 := by
  unfold stringsToMapStep normalizeLine
  by_cases hc : s.data.contains '=' = true
  · by_cases hk : lineKey s = ""
    · simp [hc, hk]
    · by_cases hv : lineValue s = ""
      · simp [hc, hk, hv]
      · have hm : '=' ∈ s.data := by simpa using hc
        simp [hm, hk, hv]
  · have hm : ¬ '=' ∈ s.data := by simpa using hc
    simp [hm]

theorem stringsToMap_foldl (ss : List String) (m : ConfigMap) (key : String) :
    mapLookup (ss.foldl stringsToMapStep m) key =
      match lastValueFor (ss.filterMap normalizeLine) key with
      | some v => some v
      | none => mapLookup m key := by
  induction ss generalizing m with
  | nil => simp [lastValueFor]
  | cons s rest ih =>
    rw [List.foldl_cons, ih, stringsToMapStep_eq_normalizeLine, List.filterMap_cons]
    cases hn : normalizeLine s with
    | none => rfl
    | some kv =>
      obtain ⟨k, v⟩ := kv
      simp only [lastValueFor]
      cases lastValueFor (rest.filterMap normalizeLine) key with
      | some w => rfl
      | none =>
        by_cases hk : k = key
        · subst hk
          simp [mapLookup_mapInsert_self]
        · simp [hk, mapLookup_mapInsert_ne _ _ _ _ fun e => hk e.symm]

/-- **C7.** Normalizing raw `KEY=VALUE` lines: a line without `=`
contributes nothing; otherwise the line is split at its first `=`, the key
lower-cased, entries with an empty key or empty value are discarded, and
when two retained lines in one call produce the same key the later one
wins.  `normalizeLine` is the claim's per-line description; the theorem
says a `stringsToMap` lookup returns exactly the value of the *last*
retained line for that key (and checks the unit-test vector).  The stage
is a total function with no error output. -/
theorem stringsToMap_spec (ss : List String) (key : String) :
    mapLookup (stringsToMap ss) key =
      lastValueFor (ss.filterMap normalizeLine) key ∧
    stringsToMap ["", "     ", "=", "A=", "B=1"] = [("b", "1")] := by
  refine ⟨?_, by rfl⟩
  rw [stringsToMap, stringsToMap_foldl]
  cases lastValueFor (ss.filterMap normalizeLine) key with
  | some v => rfl
  | none => rfl

theorem casGo_spec (t : ScalarType) (i : Nat) (values : List String) :
    casGo t i values =
      (sliceSuccesses t values,
        ((List.enumFrom i values).filter fun p =>
          !(convertAndSetValue t (zeroVal t) p.2).2).map Prod.fst) := by
  induction values generalizing i with
  | nil => simp [casGo, sliceSuccesses]
  | cons s rest ih =>
    simp only [casGo, ih, sliceSuccesses, List.filterMap_cons, List.enumFrom,
      List.filter_cons]
    cases hok : (convertAndSetValue t (zeroVal t) s).2 with
    | true => simp [hok, sliceSuccesses]
    | false => simp [hok, sliceSuccesses]

/-- **C2.** For every sequence field the raw string is split on the
delimiter, tokens trimmed and empties dropped (`stringToSlice`), and each
remaining token converted independently: the output extends the prior
slice with exactly the successfully converted values in their original
relative order, while each failing token contributes its 0-based index
within the filtered token list (and no placeholder value); in particular
`"1 x 3"` with delimiter `" "` into `int` yields values `[1, 3]` and
failed indices `[1]`. -/
theorem convertSequence_skips_failed_tokens (t : ScalarType)
    (prior : List ScalarVal) (raw delim : String) :
    convertAndSetSlice t prior (stringToSlice raw delim) =
      (prior ++ sliceSuccesses t (stringToSlice raw delim),
        sliceFailedIdx t (stringToSlice raw delim)) ∧
    stringToSlice "1 x 3" " " = ["1", "x", "3"] ∧
    convertAndSetSlice (ScalarType.tInt 64) [] ["1", "x", "3"] =
      ([ScalarVal.vInt 1, ScalarVal.vInt 3], [1]) := by
  refine ⟨?_, by rfl, by rfl⟩
  rw [convertAndSetSlice, casGo_spec]
  rfl

/-- **C5.** A scalar field whose raw input is empty — in particular one
whose lookup key is absent from the config map — is never an error and
keeps exactly its caller-supplied prior value, so pre-set defaults survive
binding: `convertAndSetValue` succeeds without touching the value, an
absent key reads as `""`, and the walker leaves such a field untouched
while recording no failure for it. -/
theorem empty_input_preserves_prior :
    (∀ (t : ScalarType) (prior : ScalarVal),
      convertAndSetValue t prior "" = (prior, true)) ∧
    (∀ (cm : ConfigMap) (k : String), mapLookup cm k = none → configLookup cm k = "") ∧
    (∀ (cm : ConfigMap) (stD slD pre name : String) (tag : Option String)
        (t : ScalarType) (sv : ScalarVal) (fs : List Field) (vs : List FieldVal),
      configLookup cm (getKey name tag pre) = "" →
      populateFieldsGo cm stD slD pre
          (Field.mk name tag (FieldType.scalar t) :: fs) (FieldVal.scalarV sv :: vs) =
        (FieldVal.scalarV sv :: (populateFieldsGo cm stD slD pre fs vs).1,
          (populateFieldsGo cm stD slD pre fs vs).2)) := by
  refine ⟨fun t prior => by simp [convertAndSetValue], ?_, ?_⟩
  · intro cm k h
    simp [configLookup, h]
  · intro cm stD slD pre name tag t sv fs vs h
    simp [populateFieldsGo, populateValue, h, convertAndSetValue]

/-- Witness for `empty_input_preserves_prior`: the key `"k"` is absent
from the map `[("x", "1")]`, and the preset value `"hardcoded"` survives
with no recorded failure. -/
theorem empty_input_preserves_prior_witness :
    populateFieldsGo [("x", "1")] "__" " " ""
        [Field.mk "K" none (FieldType.scalar ScalarType.tString)]
        [FieldVal.scalarV (ScalarVal.vString "hardcoded")] =
      ([FieldVal.scalarV (ScalarVal.vString "hardcoded")], []) := by
  have h := empty_input_preserves_prior.2.2 [("x", "1")] "__" " " "" "K" none
    ScalarType.tString (ScalarVal.vString "hardcoded") [] [] (by rfl)
  simpa using h

/-- **C1.** One binding pass attempts every field regardless of failures
on earlier fields: the walker over `fs1 ++ fs2` processes `fs2` exactly as
it would in isolation — whatever failures `fs1` produced — and the
failures of the whole pass are the concatenation of the per-field
failures, which `To` then returns as one aggregate (`none` exactly when no
field failed). -/
theorem populate_attempts_every_field (cm : ConfigMap) (stD slD pre : String)
    (fs1 fs2 : List Field) (vs1 vs2 : List FieldVal)
    (h : fs1.length = vs1.length) :
    populateFieldsGo cm stD slD pre (fs1 ++ fs2) (vs1 ++ vs2) =
      ((populateFieldsGo cm stD slD pre fs1 vs1).1 ++
          (populateFieldsGo cm stD slD pre fs2 vs2).1,
        (populateFieldsGo cm stD slD pre fs1 vs1).2 ++
          (populateFieldsGo cm stD slD pre fs2 vs2).2) ∧
    ((bindTo cm stD slD (fs1 ++ fs2) (vs1 ++ vs2)).2 = none ↔
      (populateFieldsGo cm stD slD "" (fs1 ++ fs2) (vs1 ++ vs2)).2 = []) := by
  constructor
  · induction fs1 generalizing vs1 with
    | nil =>
      have : vs1 = [] := by
        cases vs1 with
        | nil => rfl
        | cons v vs => simp at h
      subst this
      simp [populateFieldsGo]
    | cons f fs ih =>
      cases vs1 with
      | nil => simp at h
      | cons v vs =>
        obtain ⟨name, tag, ft⟩ := f
        simp only [List.length_cons, Nat.succ.injEq] at h
        simp only [List.cons_append, populateFieldsGo, ih vs h]
        simp only [List.append_assoc, Prod.mk.injEq, List.append_eq]
        exact ⟨by rw [ih vs h], by rw [ih vs h]⟩
  · rw [bindTo]
    by_cases he : (populateFieldsGo cm stD slD "" (fs1 ++ fs2) (vs1 ++ vs2)).2 = []
    · simp [he]
    · simp [he]

/-- Witness for `populate_attempts_every_field`: field `A` (an `int8`
given the out-of-range value `"999"`) fails, yet its sibling `B` is still
looked up, converted and populated, and the one failure is aggregated. -/
theorem populate_attempts_every_field_witness :
    populateFieldsGo [("a", "999"), ("b", "2")] "__" " " ""
        ([Field.mk "A" none (FieldType.scalar (ScalarType.tInt 8))] ++
          [Field.mk "B" none (FieldType.scalar (ScalarType.tInt 64))])
        ([FieldVal.scalarV (ScalarVal.vInt 0)] ++ [FieldVal.scalarV (ScalarVal.vInt 0)]) =
      ([FieldVal.scalarV (ScalarVal.vInt 0), FieldVal.scalarV (ScalarVal.vInt 2)],
        ["a"]) := by
  have h := (populate_attempts_every_field [("a", "999"), ("b", "2")] "__" " " ""
    [Field.mk "A" none (FieldType.scalar (ScalarType.tInt 8))]
    [Field.mk "B" none (FieldType.scalar (ScalarType.tInt 64))]
    [FieldVal.scalarV (ScalarVal.vInt 0)] [FieldVal.scalarV (ScalarVal.vInt 0)] rfl).1
  rw [h]
  rfl

/-- **C9 counterexample.** A record containing a field of an unsupported
kind (`chan`) with a value present does *not* abort binding with a fatal
precondition failure: `To` completes, records the unsupported field as an
ordinary recoverable failed field in the single aggregate error, and still
populates the later sibling field. -/
theorem unsupported_kind_aggregated_counterexample :
    bindTo [("u", "x"), ("b", "2")] "__" " "
        [Field.mk "U" none (FieldType.scalar (ScalarType.tUnsupported "chan")),
          Field.mk "B" none (FieldType.scalar (ScalarType.tInt 64))]
        [FieldVal.scalarV ScalarVal.vNone, FieldVal.scalarV (ScalarVal.vInt 0)] =
      ([FieldVal.scalarV ScalarVal.vNone, FieldVal.scalarV (ScalarVal.vInt 2)],
        some "config: the following fields had errors: [u]") := by
  rfl

/-- **C9 (amended).** An unsupported field kind is handled as a
*recoverable* failure, not a fatal abort: when a value is present for its
key, the walker records the key among the aggregated failed fields,
leaves the field's contents untouched, and continues with the remaining
fields exactly as it would have without the unsupported field.  (When no
value is present the unsupported field is silently skipped; only a
non-struct-pointer bind target panics.) -/
theorem unsupported_kind_recoverable (cm : ConfigMap)
    (stD slD pre name kind : String) (w : ScalarVal)
    (fs : List Field) (vs : List FieldVal)
    (hne : configLookup cm (getKey name none pre) ≠ "") :
    populateFieldsGo cm stD slD pre
        (Field.mk name none (FieldType.scalar (ScalarType.tUnsupported kind)) :: fs)
        (FieldVal.scalarV w :: vs) =
      (FieldVal.scalarV w :: (populateFieldsGo cm stD slD pre fs vs).1,
        getKey name none pre :: (populateFieldsGo cm stD slD pre fs vs).2) := by
  simp [populateFieldsGo, populateValue, convertAndSetValue, hne]

/-- Witness for `unsupported_kind_recoverable`: a concrete `chan`-kinded
field `U` with value `"x"` present is recorded as the failed field `"u"`
and the walk continues. -/
theorem unsupported_kind_recoverable_witness :
    populateFieldsGo [("u", "x")] "__" " " ""
        [Field.mk "U" none (FieldType.scalar (ScalarType.tUnsupported "chan"))]
        [FieldVal.scalarV ScalarVal.vNone] =
      ([FieldVal.scalarV ScalarVal.vNone], ["u"]) := by
  have h := unsupported_kind_recoverable [("u", "x")] "__" " " "" "U" "chan"
    ScalarVal.vNone [] [] (by decide)
  simpa using h

theorem decDigits_of_digits (ds : List Char) (h1 : ds ≠ [])
    (h2 : ds.all isDig = true) : decDigits ds = some (digitsToNat ds) := by
  simp [decDigits, h1, h2]

/-- **C3.** Scalar conversion of a signed-integer field enforces the
field's exact declared bit width: any decimal input (optionally negated)
whose magnitude lies outside `[-2^(bits-1), 2^(bits-1)-1]` fails to
convert and leaves the destination untouched — the parse receives the
reflected `Type().Bits()` of the field, not a generic integer width. -/
theorem int_conversion_enforces_bit_width (bits : Nat) (prior : ScalarVal)
    (sgn : Bool) (ds : List Char) (s : String)
    (hds : ds ≠ []) (hdig : ds.all isDig = true)
    (hs : s.data = if sgn then '-' :: ds else ds)
    (hout : (if sgn then 2 ^ (bits - 1) else 2 ^ (bits - 1) - 1) < digitsToNat ds) :
    convertAndSetValue (ScalarType.tInt bits) prior s = (prior, false) := by
  have hone : (1 : Nat) ≤ 2 ^ (bits - 1) := Nat.one_le_two_pow
  have hcast : ((2 ^ (bits - 1) : Nat) : Int) = (2 : Int) ^ (bits - 1) := by
    push_cast
    rfl
  cases sgn with
  | true =>
    simp only [if_true] at hs hout
    have hsne : s ≠ "" := by
      intro e
      subst e
      simp at hs
    have hsyn : parseIntSyntax s = some (-(digitsToNat ds : Int)) := by
      rw [parseIntSyntax]
      rw [hs]
      simp [decDigits_of_digits ds hds hdig]
    have hp : parseInt10 s bits = none := by
      have hneg : ¬ (-(2 ^ (bits - 1) : Int) ≤ -(digitsToNat ds : Int) ∧
          -(digitsToNat ds : Int) ≤ (2 ^ (bits - 1) : Int) - 1) := by
        intro hcond
        have h1 := hcond.1
        have h2 : ((2 ^ (bits - 1) : Nat) : Int) < (digitsToNat ds : Int) := by
          exact_mod_cast hout
        rw [hcast] at h2
        omega
      rw [parseInt10, hsyn]
      exact if_neg hneg
    simp [convertAndSetValue, hsne, hp]
  | false =>
    simp only [if_false, Bool.false_eq_true] at hs hout
    have hsne : s ≠ "" := by
      intro e
      subst e
      exact hds (by simpa using hs.symm)
    have hsyn : parseIntSyntax s = some ((digitsToNat ds : Int)) := by
      rw [parseIntSyntax]
      cases hd : ds with
      | nil => exact absurd hd hds
      | cons c cs =>
        subst hd
        have hc : isDig c = true := by
          simp only [List.all_cons, Bool.and_eq_true] at hdig
          exact hdig.1
        have hcp : ¬ c = '+' := by
          intro e; subst e; exact absurd hc (by decide)
        have hcm : ¬ c = '-' := by
          intro e; subst e; exact absurd hc (by decide)
        rw [hs]
        simp [hcp, hcm, decDigits_of_digits (c :: cs) hds hdig]
    have hp : parseInt10 s bits = none := by
      have hneg : ¬ (-(2 ^ (bits - 1) : Int) ≤ (digitsToNat ds : Int) ∧
          (digitsToNat ds : Int) ≤ (2 ^ (bits - 1) : Int) - 1) := by
        intro hcond
        have h1 := hcond.2
        have h2 : ((2 ^ (bits - 1) - 1 : Nat) : Int) < (digitsToNat ds : Int) := by
          exact_mod_cast hout
        rw [Nat.cast_sub hone, hcast] at h2
        simp only [Nat.cast_one] at h2
        omega
      rw [parseInt10, hsyn]
      exact if_neg hneg
    simp [convertAndSetValue, hsne, hp]

/-- Witness for `int_conversion_enforces_bit_width`: an 8-bit signed
field rejects `"128"` and `"200"`, a 16-bit signed field rejects
`"32768"` and `"40000"` (the latter would fit a 26-bit parse), and
`"-129"` is rejected by an 8-bit signed field. -/
theorem int_conversion_enforces_bit_width_witness :
    convertAndSetValue (ScalarType.tInt 8) (ScalarVal.vInt 0) "128" =
      (ScalarVal.vInt 0, false) ∧
    convertAndSetValue (ScalarType.tInt 8) (ScalarVal.vInt 0) "200" =
      (ScalarVal.vInt 0, false) ∧
    convertAndSetValue (ScalarType.tInt 16) (ScalarVal.vInt 0) "32768" =
      (ScalarVal.vInt 0, false) ∧
    convertAndSetValue (ScalarType.tInt 16) (ScalarVal.vInt 0) "40000" =
      (ScalarVal.vInt 0, false) ∧
    convertAndSetValue (ScalarType.tInt 8) (ScalarVal.vInt 0) "-129" =
      (ScalarVal.vInt 0, false) := by
  refine ⟨?_, ?_, ?_, ?_, ?_⟩
  · exact int_conversion_enforces_bit_width 8 (ScalarVal.vInt 0) false
      ['1', '2', '8'] "128" (by decide) (by decide) (by rfl) (by decide)
  · exact int_conversion_enforces_bit_width 8 (ScalarVal.vInt 0) false
      ['2', '0', '0'] "200" (by decide) (by decide) (by rfl) (by decide)
  · exact int_conversion_enforces_bit_width 16 (ScalarVal.vInt 0) false
      ['3', '2', '7', '6', '8'] "32768" (by decide) (by decide) (by rfl) (by decide)
  · exact int_conversion_enforces_bit_width 16 (ScalarVal.vInt 0) false
      ['4', '0', '0', '0', '0'] "40000" (by decide) (by decide) (by rfl) (by decide)
  · exact int_conversion_enforces_bit_width 8 (ScalarVal.vInt 0) true
      ['1', '2', '9'] "-129" (by decide) (by decide) (by rfl) (by decide)

/-- **C4 counterexample.** Scalar conversion is *not* atomic on error for
unsigned fields: a `uint8` destination holding `7` that is fed the
out-of-range input `"300"` reports a failure but is overwritten with the
clamped value `255` that `strconv.ParseUint` returned alongside the error
(the `Uint` case calls `SetUint(u)` unconditionally), so the destination
does not retain its prior value. -/
theorem scalar_conversion_not_atomic_counterexample :
    convertAndSetValue (ScalarType.tUint 8) (ScalarVal.vUint 7) "300" =
      (ScalarVal.vUint 255, false) ∧
    ScalarVal.vUint 255 ≠ ScalarVal.vUint 7 ∧
    convertAndSetValue (ScalarType.tUint 8) (ScalarVal.vUint 7) "abc" =
      (ScalarVal.vUint 0, false) := by
  refine ⟨by rfl, by decide, by rfl⟩

/-- **C4 (amended).** On a failed parse of a non-empty input a failure is
always reported to the caller, but only the string, signed-integer and
`time.Duration` cases leave the destination untouched; the
unsigned-integer and bool cases (and analogously the float cases) store
the value the parser returned alongside the error — `0`/`false` for a
syntax error and the clamped maximum for an unsigned range error — so the
destination does not, in general, retain its prior value. -/
theorem scalar_conversion_failure_behavior :
    (∀ (bits : Nat) (prior : Int) (s : String), s ≠ "" → parseInt10 s bits = none →
      convertAndSetValue (ScalarType.tInt bits) (ScalarVal.vInt prior) s =
        (ScalarVal.vInt prior, false)) ∧
    (∀ (prior : Int) (s : String), s ≠ "" → parseDuration s = none →
      convertAndSetValue ScalarType.tDuration (ScalarVal.vInt prior) s =
        (ScalarVal.vInt prior, false)) ∧
    (∀ (bits : Nat) (prior : Nat) (s : String), s ≠ "" →
      (parseUint10 s bits).2 = false →
      convertAndSetValue (ScalarType.tUint bits) (ScalarVal.vUint prior) s =
        (ScalarVal.vUint (parseUint10 s bits).1, false)) ∧
    (∀ (prior : Bool) (s : String), s ≠ "" → (parseBoolGo s).2 = false →
      convertAndSetValue ScalarType.tBool (ScalarVal.vBool prior) s =
        (ScalarVal.vBool false, false)) := by
  refine ⟨?_, ?_, ?_, ?_⟩
  · intro bits prior s hs hp
    simp [convertAndSetValue, hs, hp]
  · intro prior s hs hp
    simp [convertAndSetValue, hs, hp]
  · intro bits prior s hs hp
    simp [convertAndSetValue, hs, hp]
  · intro prior s hs hp
    have hv : (parseBoolGo s).1 = false := by
      rw [parseBoolGo] at hp ⊢
      by_cases h1 : s = "1" ∨ s = "t" ∨ s = "T" ∨ s = "true" ∨ s = "TRUE" ∨ s = "True"
      · simp [h1] at hp
      · by_cases h2 : s = "0" ∨ s = "f" ∨ s = "F" ∨ s = "false" ∨ s = "FALSE" ∨
            s = "False"
        · simp [h1, h2]
        · simp [h1, h2]
    simp [convertAndSetValue, hs, hp, hv]

/-- Witness for `scalar_conversion_failure_behavior`: concrete failures
for each conversion family — the `int8` and duration destinations keep
their prior value `5`, while the `uint8` destination is overwritten with
the parser's returned `0`, and the bool destination with `false`. -/
theorem scalar_conversion_failure_behavior_witness :
    convertAndSetValue (ScalarType.tInt 8) (ScalarVal.vInt 5) "abc" =
      (ScalarVal.vInt 5, false) ∧
    convertAndSetValue ScalarType.tDuration (ScalarVal.vInt 5) "abc" =
      (ScalarVal.vInt 5, false) ∧
    convertAndSetValue (ScalarType.tUint 8) (ScalarVal.vUint 7) "abc" =
      (ScalarVal.vUint 0, false) ∧
    convertAndSetValue ScalarType.tBool (ScalarVal.vBool true) "abc" =
      (ScalarVal.vBool false, false) := by
  refine ⟨?_, ?_, ?_, ?_⟩
  · exact scalar_conversion_failure_behavior.1 8 5 "abc" (by decide) (by rfl)
  · exact scalar_conversion_failure_behavior.2.1 5 "abc" (by decide) (by rfl)
  · have h := scalar_conversion_failure_behavior.2.2.1 8 7 "abc" (by decide) (by rfl)
    simpa using h
  · exact scalar_conversion_failure_behavior.2.2.2 true "abc" (by decide) (by rfl)

/-- **C10.** A field declared as `time.Duration` (an `int64`-kinded named
type from package `time`) is parsed with `time.ParseDuration`, not as a
decimal integer: `"8h"` sets the field to eight hours in nanoseconds and
would fail on a plain `int64` field, a unit-less decimal such as `"5"`
fails for a duration field, and any string `time.ParseDuration` rejects is
an ordinary scalar conversion failure that leaves the field untouched. -/
theorem duration_field_parsed_as_duration :
    (∀ p : Int, convertAndSetValue ScalarType.tDuration (ScalarVal.vInt p) "8h" =
      (ScalarVal.vInt 28800000000000, true)) ∧
    (∀ p : Int, convertAndSetValue (ScalarType.tInt 64) (ScalarVal.vInt p) "8h" =
      (ScalarVal.vInt p, false)) ∧
    (∀ p : Int, convertAndSetValue ScalarType.tDuration (ScalarVal.vInt p) "5" =
      (ScalarVal.vInt p, false)) ∧
    (∀ (p : Int) (s : String), s ≠ "" → parseDuration s = none →
      convertAndSetValue ScalarType.tDuration (ScalarVal.vInt p) s =
        (ScalarVal.vInt p, false)) := by
  refine ⟨?_, ?_, ?_, ?_⟩
  · intro p
    simp [convertAndSetValue]
    rfl
  · intro p
    simp [convertAndSetValue]
    rfl
  · intro p
    simp [convertAndSetValue]
    rfl
  · intro p s hs hp
    simp [convertAndSetValue, hs, hp]

/-- Witness for `duration_field_parsed_as_duration`: the invalid duration
`"zz"` fails and leaves the prior value `3` in place. -/
theorem duration_field_parsed_as_duration_witness :
    convertAndSetValue ScalarType.tDuration (ScalarVal.vInt 3) "zz" =
      (ScalarVal.vInt 3, false) :=
  duration_field_parsed_as_duration.2.2.2 3 "zz" (by decide) (by rfl)

theorem stringDataAppend (s t : String) : (s ++ t).data = s.data ++ t.data := rfl

/-- **C8 counterexample.** The rendered `fieldError` message is *not*
independent of the offending raw value: with the wrapped `strconv` error
of the library's own unit test (`strconv.Atoi("xyz")`), the message
embeds `"xyz"` verbatim — it is exactly the string `error_test.go`
expects — and changing only the offending value changes the message. -/
theorem fieldError_message_includes_raw_value :
    fieldErrorMsg "int" "port" (numErrorMsg "Atoi" "xyz" "invalid syntax") =
      "failed to parse int value for field port: strconv.Atoi: parsing \"xyz\": invalid syntax" ∧
    fieldErrorMsg "int" "port" (numErrorMsg "Atoi" "xyz" "invalid syntax") ≠
      fieldErrorMsg "int" "port" (numErrorMsg "Atoi" "abc" "invalid syntax") := by
  refine ⟨by rfl, by decide⟩

/-- **C8 (amended).** The `fieldError` message interpolates the wrapped
conversion error's text, and a `strconv` error quotes the raw offending
input, so the rendered message determines — and therefore reveals — the
offending value: two messages built around `strconv` errors that differ
only in the raw value are equal exactly when the raw values are equal.
(Only the earlier bool-returning converter's aggregate, which lists bare
field keys, is independent of the offending values.) -/
theorem fieldError_message_determines_raw_value (t n fn et r1 r2 : String) :
    fieldErrorMsg t n (numErrorMsg fn r1 et) =
      fieldErrorMsg t n (numErrorMsg fn r2 et) ↔ r1 = r2 := by
  constructor
  · intro h
    have h2 := congrArg String.data h
    simp only [fieldErrorMsg, numErrorMsg, stringDataAppend, List.append_assoc] at h2
    have h3 := List.append_cancel_left h2
    have h4 := List.append_cancel_left h3
    have h5 := List.append_cancel_left h4
    have h6 := List.append_cancel_left h5
    have h7 := List.append_cancel_left h6
    have h8 := List.append_cancel_left h7
    have h9 := List.append_cancel_left h8
    have h9b := List.append_cancel_left h9
    have h10 := List.append_cancel_right h9b
    cases r1; cases r2
    exact congrArg String.mk h10
  · intro h
    rw [h]

end Config
